import Mathlib

/-!
Verification of the agentic tool-execution loop of this repository.

The development shallowly embeds the two core modules:
  * src/tools.py  — the tool executor (bash / read_file / write_file /
    edit_file / finish) returning uniform result envelopes;
  * src/agent.py  — the bounded agent loop (Agent.run) and the retry
    wrapper (Agent.run_with_retry).

Python strings are modelled as lists of characters.  The file system seen
by the file tools is modelled as an association list from paths to
contents (lookup finds the most recent binding).  Shell commands and the
LLM gateway are external effects: they are modelled as oracles supplied
as parameters (a function from command to outcome, and a response script
indexed by a call counter).  Python exceptions are modelled with Except;
the raw JSON `arguments` string of a tool call is modelled abstractly by
its parse outcome (either a decoded argument mapping or a decode error),
which is exactly what json.loads exposes to the loop.
-/

namespace AgentSpec

/-- Python strings, modelled as lists of characters. -/
abbrev Text := List Char

/-- Python str.strip(): drop whitespace from both ends. -/
def pyStrip (s : Text) : Text :=
  ((s.dropWhile Char.isWhitespace).reverse.dropWhile Char.isWhitespace).reverse

/-- Python substring containment (the `in` operator on strings):
`containsSub old s` is true iff `old` occurs contiguously in `s`. -/
def containsSub (old : Text) : Text → Bool
  | [] => old.isEmpty
  | c :: rest => old.isPrefixOf (c :: rest) || containsSub old rest

/-- Python str.replace(old, new, 1): replace the first (leftmost)
occurrence of `old` by `new`; if `old` does not occur, return the string
unchanged.  An empty `old` matches at position 0, as in Python. -/
def replaceFirst (old new : Text) : Text → Text
  | [] => if old.isPrefixOf ([] : Text) then new else []
  | c :: rest =>
    if old.isPrefixOf (c :: rest) then new ++ (c :: rest).drop old.length
    else c :: replaceFirst old new rest

/-- The file system visible to the file tools: an association list from
paths to contents; lookup returns the most recent binding. -/
abbrev FS := List (Text × Text)

def fsGet (fs : FS) (p : Text) : Option Text := List.lookup p fs

def fsSet (fs : FS) (p c : Text) : FS := (p, c) :: fs

/-- A decoded tool-argument mapping (Python dict with string values). -/
abbrev Args := List (Text × Text)

def dictGet (args : Args) (k : Text) : Option Text := List.lookup k args

/-- Python exceptions that the embedded code can raise. -/
inductive PyError
  | keyError (k : Text)
  | jsonDecode (msg : Text)
  | gatewayErr (msg : Text)
deriving DecidableEq, Repr

/-- str(e) for an exception, as interpolated into error envelopes. -/
def pyErrStr : PyError → Text
  | .keyError k => [Char.ofNat 39] ++ k ++ [Char.ofNat 39]
  | .jsonDecode m => m
  | .gatewayErr m => m

/-- The raw `arguments` string of a tool call, modelled by its json.loads
outcome: either a decoded mapping or a decode error message. -/
inductive ArgText
  | valid (args : Args)
  | invalid (msg : Text)
deriving DecidableEq, Repr

/-- json.loads on the raw arguments string (src/agent.py line 105). -/
def json_loads : ArgText → Except PyError Args
  | .valid a => .ok a
  | .invalid m => .error (.jsonDecode m)

/-- The uniform tool result envelope (a Python dict whose keys are
"success", "output", "error", "return_code", "finished"; absent optional
keys are `none`, and an absent "finished" key reads as `false`). -/
structure ToolResult where
  success : Bool
  output : Option Text := none
  error : Option Text := none
  return_code : Option Int := none
  finished : Bool := false
deriving DecidableEq, Repr

/-- Outcome of running one shell command, as decided by the environment:
the process completed with captured stdout, stderr and an exit code, or
timed out, or the spawn itself failed. -/
inductive BashOutcome
  | completed (stdout stderr : Text) (rc : Int)
  | timeout
  | oserror (msg : Text)

/-- The shell oracle: what the operating system does for each command. -/
abbrev BashOracle := Text → BashOutcome

namespace ToolExecutor

/-- ToolExecutor.bash (src/tools.py lines 153-184). -/
def bash (o : BashOracle) (command : Text) : ToolResult :=
  match o command with
  | .completed so se rc =>
      { success := decide (rc = 0)
        output := some (pyStrip (so ++ se))
        return_code := some rc }
  | .timeout =>
      { success := false
        error := some ("Command timed out after 60 seconds").data }
  | .oserror m =>
      { success := false
        error := some (("Failed to execute command: ").data ++ m) }

/-- ToolExecutor.read_file (src/tools.py lines 186-209). -/
def read_file (fs : FS) (file_path : Text) : ToolResult :=
  match fsGet fs file_path with
  | some content => { success := true, output := some content }
  | none =>
      { success := false
        error := some (("File not found: ").data ++ file_path) }

/-- ToolExecutor.write_file (src/tools.py lines 211-232).  In the model
the underlying write always succeeds. -/
def write_file (fs : FS) (file_path content : Text) : ToolResult × FS :=
  ({ success := true
     output := some (("Successfully wrote to ").data ++ file_path) },
   fsSet fs file_path content)

/-- ToolExecutor.edit_file (src/tools.py lines 234-259): read, check that
old_text occurs verbatim, replace the first occurrence, write back. -/
def edit_file (fs : FS) (file_path old_text new_text : Text) : ToolResult × FS :=
  let r := read_file fs file_path
  if r.success then
    match r.output with
    | some content =>
        if containsSub old_text content then
          write_file fs file_path (replaceFirst old_text new_text content)
        else
          ({ success := false
             error := some (("Text to replace not found in ").data ++ file_path) },
           fs)
    | none =>
        ({ success := false
           error := some ("Failed to edit file: missing output").data }, fs)
  else (r, fs)

/-- The dispatch body of ToolExecutor.execute (src/tools.py lines
126-145), before the surrounding exception guard.  Each required
argument access `arguments["k"]` raises KeyError when the key is
missing, in the order Python evaluates the accesses. -/
def executeInner (o : BashOracle) (tool_name : Text) (args : Args) (fs : FS) :
    Except PyError (ToolResult × FS) :=
  if tool_name = ("bash").data then
    match dictGet args ("command").data with
    | none => .error (.keyError ("command").data)
    | some cmd => .ok (bash o cmd, fs)
  else if tool_name = ("read_file").data then
    match dictGet args ("file_path").data with
    | none => .error (.keyError ("file_path").data)
    | some p => .ok (read_file fs p, fs)
  else if tool_name = ("write_file").data then
    match dictGet args ("file_path").data with
    | none => .error (.keyError ("file_path").data)
    | some p =>
      match dictGet args ("content").data with
      | none => .error (.keyError ("content").data)
      | some c => .ok (write_file fs p c)
  else if tool_name = ("edit_file").data then
    match dictGet args ("file_path").data with
    | none => .error (.keyError ("file_path").data)
    | some p =>
      match dictGet args ("old_text").data with
      | none => .error (.keyError ("old_text").data)
      | some ol =>
        match dictGet args ("new_text").data with
        | none => .error (.keyError ("new_text").data)
        | some nw => .ok (edit_file fs p ol nw)
  else if tool_name = ("finish").data then
    match dictGet args ("summary").data with
    | none => .error (.keyError ("summary").data)
    | some s => .ok ({ success := true, output := some s, finished := true }, fs)
  else
    .ok ({ success := false
           error := some (("Unknown tool: ").data ++ tool_name) }, fs)

/-- ToolExecutor.execute (src/tools.py lines 119-151): run the dispatch
body under the catch-all exception guard, converting any exception into a
failed result envelope. -/
def execute (o : BashOracle) (tool_name : Text) (args : Args) (fs : FS) :
    ToolResult × FS :=
  match executeInner o tool_name args fs with
  | .ok rf => rf
  | .error e => ({ success := false, error := some (pyErrStr e) }, fs)

end ToolExecutor

/-- One requested tool invocation, as it appears inside an assistant
message: correlation id, capability name, and the raw arguments string
(modelled by its parse outcome, see ArgText). -/
structure ToolCallMsg where
  id : Text
  name : Text
  arguments : ArgText
deriving DecidableEq, Repr

/-- The message part of one gateway response: optional assistant text and
an optional ordered list of requested tool calls. -/
structure AssistantMsg where
  content : Option Text := none
  tool_calls : Option (List ToolCallMsg) := none
deriving DecidableEq, Repr

/-- Python truthiness of message.get("tool_calls"): truthy exactly when
the field is present and a non-empty list. -/
def truthyCalls : Option (List ToolCallMsg) → Bool
  | some (_ :: _) => true
  | _ => false

/-- One entry of the conversation history. -/
inductive Turn
  | system (content : Text)
  | user (content : Text)
  | assistant (msg : AssistantMsg)
  | tool (tool_call_id : Text) (result : ToolResult)
deriving DecidableEq, Repr

/-- Outcome of one gateway call: a parsed response (message plus the
total-token usage figure), or a raised transport exception. -/
inductive GatewayOutcome
  | resp (msg : AssistantMsg) (total_tokens : Nat)
  | raise (e : PyError)

/-- The external environment of one run: the gateway's response script
(indexed by a call counter) and the shell oracle. -/
structure Env where
  gateway : Nat → GatewayOutcome
  bash : BashOracle

/-- The agent's configuration (the fields that influence control flow). -/
structure Config where
  max_iterations : Nat

/-- The mutable state threaded through Agent.run: the conversation
history and usage counters live on the Agent object (self); iterations,
finished and final_result are locals of run; fs is the working directory
contents; gIdx counts gateway calls made so far (the script cursor). -/
structure LoopState where
  history : List Turn
  iterations : Nat
  finished : Bool
  final_result : Option Text
  total_tokens : Nat
  total_tool_calls : Nat
  fs : FS
  gIdx : Nat

/-- The record returned by Agent.run.  On the normal path it carries the
conversation history; on the exception path it carries the error text
instead (src/agent.py lines 147-155 and 159-165). -/
structure RunResult where
  success : Bool
  result : Option Text := none
  iterations : Nat
  tokens : Nat
  tool_calls : Nat
  error : Option Text := none
  conversation_history : Option (List Turn) := none
deriving DecidableEq, Repr

/-- The persistent fields of the Agent object between calls to run. -/
structure AgentRec where
  history : List Turn
  total_tokens : Nat
  total_tool_calls : Nat
  fs : FS
  gIdx : Nat

namespace Agent

/-- The per-iteration state update performed after a successful gateway
call, before any tool dispatch: advance the script cursor, accumulate
token usage, and append the assistant turn (src/agent.py lines 87-92). -/
def preBatch (msg : AssistantMsg) (u : Nat) (st : LoopState) : LoopState :=
  { st with
    gIdx := st.gIdx + 1
    total_tokens := st.total_tokens + u
    history := st.history ++ [Turn.assistant msg] }

/-- The tool-call batch loop (src/agent.py lines 100-127): for each call
in order, count it, parse its arguments, execute it, note a finish flag,
and collect the tool-result turn in a local list.  A raised exception
(invalid JSON arguments, or a missing output on a finished result)
aborts the batch, discarding the collected result turns but keeping all
state mutations made so far. -/
def runBatch (env : Env) :
    List ToolCallMsg → LoopState → List Turn →
    Except (PyError × LoopState) (LoopState × List Turn)
  | [], st, acc => .ok (st, acc)
  | tc :: rest, st, acc =>
    let st1 := { st with total_tool_calls := st.total_tool_calls + 1 }
    match json_loads tc.arguments with
    | .error e => .error (e, st1)
    | .ok args =>
      let rf := ToolExecutor.execute env.bash tc.name args st1.fs
      let st2 := { st1 with fs := rf.2 }
      if rf.1.finished then
        match rf.1.output with
        | none => .error (.keyError ("output").data, st2)
        | some out =>
            runBatch env rest
              { st2 with finished := true, final_result := some out }
              (acc ++ [Turn.tool tc.id rf.1])
      else
        runBatch env rest st2 (acc ++ [Turn.tool tc.id rf.1])

/-- The while loop of Agent.run (src/agent.py lines 75-135), with fuel
equal to the number of iterations still allowed by the budget (the
entry invariant is fuel = max_iterations - iterations).  The body: bump
the iteration counter, call the gateway, append the assistant turn; if
the turn carries tool calls, run the batch and append all collected
result turns contiguously; otherwise break early once on or past the
second-to-last allowed iteration. -/
def loopGo (env : Env) (cfg : Config) :
    Nat → LoopState → Except (PyError × LoopState) LoopState
  | 0, st => .ok st
  | Nat.succ fuel, st =>
    if st.finished then .ok st
    else
      let st1 := { st with iterations := st.iterations + 1 }
      match env.gateway st1.gIdx with
      | .raise e => .error (e, { st1 with gIdx := st1.gIdx + 1 })
      | .resp msg u =>
        let st2 := preBatch msg u st1
        if truthyCalls msg.tool_calls then
          match runBatch env (msg.tool_calls.getD []) st2 [] with
          | .error es => .error es
          | .ok (st3, results) =>
              loopGo env cfg fuel { st3 with history := st3.history ++ results }
        else
          if cfg.max_iterations - 1 ≤ st2.iterations then .ok st2
          else loopGo env cfg fuel st2

/-- Agent.run (src/agent.py lines 41-165): re-initialize the
conversation to the system and user turns (without touching the usage
counters), run the bounded loop, and package the outcome — on the
normal path success is `finished and final_result is not None`; a
raised exception is caught at the loop boundary and converted into an
error record carrying the counters accumulated so far. -/
def run (env : Env) (cfg : Config) (sysPrompt task : Text) (ag : AgentRec) :
    RunResult × AgentRec :=
  match loopGo env cfg cfg.max_iterations
    { history := [Turn.system sysPrompt, Turn.user task]
      iterations := 0
      finished := false
      final_result := none
      total_tokens := ag.total_tokens
      total_tool_calls := ag.total_tool_calls
      fs := ag.fs
      gIdx := ag.gIdx } with
  | .ok st =>
      ({ success := st.finished && st.final_result.isSome
         result := st.final_result
         iterations := st.iterations
         tokens := st.total_tokens
         tool_calls := st.total_tool_calls
         conversation_history := some st.history },
       { history := st.history
         total_tokens := st.total_tokens
         total_tool_calls := st.total_tool_calls
         fs := st.fs
         gIdx := st.gIdx })
  | .error (e, st) =>
      ({ success := false
         error := some (pyErrStr e)
         iterations := st.iterations
         tokens := st.total_tokens
         tool_calls := st.total_tool_calls },
       { history := st.history
         total_tokens := st.total_tokens
         total_tool_calls := st.total_tool_calls
         fs := st.fs
         gIdx := st.gIdx })

/-- The reset performed between retry attempts (src/agent.py lines
219-221): empty conversation, zeroed usage counters.  The working
directory contents persist across attempts. -/
def resetAgent (ag : AgentRec) : AgentRec :=
  { ag with history := [], total_tokens := 0, total_tool_calls := 0 }

/-- The attempt loop of run_with_retry, with fuel counting the attempts
still allowed after the current one (fuel 0 means this is the last
attempt, after which the result is returned whatever it is). -/
def retryGo (env : Env) (cfg : Config) (sysPrompt task : Text) :
    Nat → AgentRec → RunResult × AgentRec
  | 0, ag => run env cfg sysPrompt task ag
  | Nat.succ n, ag =>
    let ra := run env cfg sysPrompt task ag
    if ra.1.success then ra
    else retryGo env cfg sysPrompt task n (resetAgent ra.2)

/-- Agent.run_with_retry (src/agent.py lines 195-223): up to max_retries
attempts, returning the first success or the last failure; with
max_retries = 0 the Python body returns an unbound local (a NameError),
modelled as none. -/
def run_with_retry (env : Env) (cfg : Config) (sysPrompt task : Text)
    (max_retries : Nat) (ag : AgentRec) : Option (RunResult × AgentRec) :=
  match max_retries with
  | 0 => none
  | Nat.succ n => some (retryGo env cfg sysPrompt task n ag)

/-- Verification instrumentation (not part of the source): the trace of
attempts made by retryGo — each entry is the agent state an attempt
started from, paired with that attempt's result. -/
def retryTrace (env : Env) (cfg : Config) (sysPrompt task : Text) :
    Nat → AgentRec → List (AgentRec × RunResult)
  | 0, ag => [(ag, (run env cfg sysPrompt task ag).1)]
  | Nat.succ n, ag =>
    let ra := run env cfg sysPrompt task ag
    if ra.1.success then [(ag, ra.1)]
    else (ag, ra.1) :: retryTrace env cfg sysPrompt task n (resetAgent ra.2)

end Agent

/-! Verification helpers (not part of the source): projections used to
state properties of result-turn lists and of retry traces. -/

/-- Whether a turn is a tool-result turn. -/
def turnIsTool : Turn → Bool
  | .tool _ _ => true
  | _ => false

/-- The finished flag of a tool-result turn (false for other turns). -/
def turnFinished : Turn → Bool
  | .tool _ r => r.finished
  | _ => false

/-- The output of a tool-result turn (none for other turns). -/
def turnOutput : Turn → Option Text
  | .tool _ r => r.output
  | _ => none

/-- The final-result value after processing a batch whose result turns
are `res`, starting from `d`: each finished result overwrites it with
that result's output, so the last finished call wins. -/
def finalAfter (res : List Turn) (d : Option Text) : Option Text :=
  res.foldl (fun acc t => if turnFinished t then turnOutput t else acc) d

/-- Loop-state invariant: a recorded final result implies the finished
flag (the two are only ever set together, by a finish call). -/
def goodSt (st : LoopState) : Prop :=
  st.final_result.isSome = true → st.finished = true

/-- The five capability names of the fixed tool set. -/
def knownToolNames : List Text :=
  [("bash").data, ("read_file").data, ("write_file").data,
   ("edit_file").data, ("finish").data]

/-- Zero the two usage counters of an agent, leaving everything else. -/
def zeroUsage (ag : AgentRec) : AgentRec :=
  { ag with total_tokens := 0, total_tool_calls := 0 }

/-- Add constant offsets to the two usage counters of a loop state. -/
def addTk (a b : Nat) (st : LoopState) : LoopState :=
  { st with
    total_tokens := a + st.total_tokens
    total_tool_calls := b + st.total_tool_calls }

/-! Concrete inputs used by the closed witness and counterexample
theorems. -/

/-- A fresh agent: empty history, zero counters, empty working dir. -/
def ag0 : AgentRec :=
  { history := [], total_tokens := 0, total_tool_calls := 0, fs := [], gIdx := 0 }

def spT : Text := ("You are a coding agent.").data

def taskT : Text := ("Fix the bug.").data

def cfg10 : Config := { max_iterations := 10 }

/-- A shell oracle on which every command completes with exit code 1. -/
def oC2 : BashOracle := fun _ => .completed ("out").data ("err").data 1

/-- A shell oracle on which every command times out (never consulted by
runs that issue no bash calls). -/
def oTimeout : BashOracle := fun _ => .timeout

/-- Gateway script for C1: every response carries a single bash call
whose arguments string is invalid JSON. -/
def envC1 : Env :=
  { gateway := fun _ =>
      .resp { tool_calls := some (
        [{ id := ("call_1").data, name := ("bash").data,
           arguments := .invalid ("Expecting value: line 1 column 1 (char 0)").data }]) } 7
    bash := oTimeout }

/-- Gateway script for C3: every response is plain text, no tool calls. -/
def envC3 : Env :=
  { gateway := fun _ => .resp { content := some ("thinking...").data } 5
    bash := oTimeout }

/-- Gateway script for C4: every response is a single finish call whose
summary is the empty string. -/
def envC4 : Env :=
  { gateway := fun _ =>
      .resp { tool_calls := some (
        [{ id := ("call_1").data, name := ("finish").data,
           arguments := .valid [(("summary").data, [])] }]) } 3
    bash := oTimeout }

/-- Gateway script for the C8 counterexample: one batch holding a finish
call followed by a call with invalid JSON arguments. -/
def envC8 : Env :=
  { gateway := fun _ =>
      .resp { tool_calls := some (
        [{ id := ("call_1").data, name := ("finish").data,
           arguments := .valid [(("summary").data, ("done").data)] },
         { id := ("call_2").data, name := ("bash").data,
           arguments := .invalid ("Expecting value: line 1 column 1 (char 0)").data }]) } 7
    bash := oTimeout }

/-- Gateway script for C9/C10 witnesses: a finish call with summary
"done" on every response. -/
def envDone : Env :=
  { gateway := fun _ =>
      .resp { tool_calls := some (
        [{ id := ("call_1").data, name := ("finish").data,
           arguments := .valid [(("summary").data, ("done").data)] }]) } 11
    bash := oTimeout }

/-- A one-file file system for the edit-file witnesses. -/
def fsHello : FS := [(("test.txt").data, ("Hello, World!").data)]

/-- Tool-call batch for the C8 witness: a finish call followed by a bash
call, both with valid arguments. -/
def callsC8 : List ToolCallMsg :=
  [{ id := ("call_1").data, name := ("finish").data,
     arguments := .valid [(("summary").data, ("done").data)] },
   { id := ("call_2").data, name := ("bash").data,
     arguments := .valid [(("command").data, ("echo hi").data)] }]

/-- Assistant message carrying the C8 witness batch. -/
def msgC8 : AssistantMsg := { tool_calls := some callsC8 }

/-- Gateway script for the C8 witness. -/
def envC8w : Env :=
  { gateway := fun _ => .resp msgC8 7
    bash := fun _ => .completed ("hi").data [] 0 }

/-- The freshly seeded loop state of a run on spT/taskT, for the C8
witness. -/
def stC8 : LoopState :=
  { history := [Turn.system spT, Turn.user taskT]
    iterations := 0
    finished := false
    final_result := none
    total_tokens := 0
    total_tool_calls := 0
    fs := []
    gIdx := 0 }

/-! Characterisation of the string primitives. -/

/-- containsSub decides occurrence as a contiguous substring. -/
theorem containsSub_iff (old : Text) :
    ∀ s : Text, containsSub old s = true ↔ ∃ l r, s = l ++ old ++ r := by
  intro s
  induction s with
  | nil =>
    simp only [containsSub, List.isEmpty_iff]
    constructor
    · rintro rfl
      exact ⟨[], [], rfl⟩
    · rintro ⟨l, r, h⟩
      rcases List.append_eq_nil.mp h.symm with ⟨h1, h2⟩
      exact (List.append_eq_nil.mp h1).2
  | cons c rest ih =>
    simp only [containsSub, Bool.or_eq_true]
    constructor
    · rintro (hp | hc)
      · obtain ⟨t, ht⟩ := List.isPrefixOf_iff_prefix.mp hp
        exact ⟨[], t, by simp [← ht]⟩
      · obtain ⟨l, r, h⟩ := ih.mp hc
        exact ⟨c :: l, r, by simp [h]⟩
    · rintro ⟨l, r, h⟩
      cases l with
      | nil =>
        left
        exact List.isPrefixOf_iff_prefix.mpr ⟨r, by simpa using h.symm⟩
      | cons c2 l2 =>
        right
        apply ih.mpr
        simp only [List.cons_append, List.cons.injEq] at h
        exact ⟨l2, r, h.2⟩

/-- replaceFirst splits the string at the leftmost occurrence of `old`
and substitutes `new` exactly there. -/
theorem replaceFirst_spec (old new : Text) :
    ∀ s : Text, containsSub old s = true →
    ∃ l r, s = l ++ old ++ r ∧ replaceFirst old new s = l ++ new ++ r ∧
      ∀ l2 r2, s = l2 ++ old ++ r2 → l.length ≤ l2.length := by
  intro s
  induction s with
  | nil =>
    intro h
    have hold : old = [] := by simpa [containsSub, List.isEmpty_iff] using h
    subst hold
    refine ⟨[], [], by simp, ?_, fun l2 r2 h2 => by simp⟩
    simp [replaceFirst, List.isPrefixOf]
  | cons c rest ih =>
    intro h
    by_cases hb : old.isPrefixOf (c :: rest) = true
    · obtain ⟨t, ht⟩ := List.isPrefixOf_iff_prefix.mp hb
      refine ⟨[], t, by simp [← ht], ?_, fun l2 r2 h2 => by simp⟩
      have hdrop : (c :: rest).drop old.length = t := by
        rw [← ht, List.drop_left]
      simp [replaceFirst, hb, hdrop]
    · have hbf : old.isPrefixOf (c :: rest) = false := by
        simp only [Bool.not_eq_true] at hb
        exact hb
      have hc : containsSub old rest = true := by
        have h' := h
        simp only [containsSub, hbf, Bool.false_or] at h'
        exact h'
      obtain ⟨l, r, hsplit, hrepl, hmin⟩ := ih hc
      refine ⟨c :: l, r, by simp [hsplit], ?_, ?_⟩
      · simp [replaceFirst, hbf, hrepl]
      · rintro l2 r2 h2
        cases l2 with
        | nil =>
          exact absurd (List.isPrefixOf_iff_prefix.mpr ⟨r2, by simpa using h2.symm⟩) hb
        | cons c2 l2' =>
          simp only [List.cons_append, List.cons.injEq] at h2
          simpa using Nat.succ_le_succ (hmin l2' r2 h2.2)

/-- Writing then reading the same path returns the written content. -/
theorem fsGet_fsSet (fs : FS) (p c : Text) : fsGet (fsSet fs p c) p = some c := by
  simp [fsGet, fsSet, List.lookup]

/-- C2 (amended): a shell command that runs to completion yields a
result whose success flag is true exactly when the exit code is zero,
with the exit code always reported in return_code, the combined
stripped output in output, and no error text. -/
theorem c2_bash_completed_success_iff_zero_exit
    (o : BashOracle) (cmd so se : Text) (rc : Int)
    (h : o cmd = BashOutcome.completed so se rc) :
    ((ToolExecutor.bash o cmd).success = true ↔ rc = 0) ∧
    (ToolExecutor.bash o cmd).return_code = some rc ∧
    (ToolExecutor.bash o cmd).output = some (pyStrip (so ++ se)) ∧
    (ToolExecutor.bash o cmd).error = none := by
  simp [ToolExecutor.bash, h]

/-- C2 witness: a command completing with exit code 0 on the C2 oracle
restricted to a zero-exit variant. -/
theorem c2_bash_completed_witness :
    (((ToolExecutor.bash (fun _ => BashOutcome.completed ("ok").data [] 0)
        ("true").data).success = true ↔ (0 : Int) = 0) ∧
      (ToolExecutor.bash (fun _ => BashOutcome.completed ("ok").data [] 0)
        ("true").data).return_code = some 0 ∧
      (ToolExecutor.bash (fun _ => BashOutcome.completed ("ok").data [] 0)
        ("true").data).output = some (pyStrip (("ok").data ++ [])) ∧
      (ToolExecutor.bash (fun _ => BashOutcome.completed ("ok").data [] 0)
        ("true").data).error = none) :=
  c2_bash_completed_success_iff_zero_exit
    (fun _ => BashOutcome.completed ("ok").data [] 0)
    ("true").data ("ok").data [] 0 rfl

/-- C2 counterexample: on a command that completes with exit code 1, the
transport-level success flag is false (the claim said it would be true),
with the exit code still reported. -/
theorem c2_counterexample_nonzero_exit_not_success :
    (ToolExecutor.bash oC2 ("false").data).success = false ∧
    (ToolExecutor.bash oC2 ("false").data).return_code = some 1 := by
  decide

/-- C5: when old_text does not occur verbatim in the file's current
contents, edit_file fails and the whole file system — in particular the
file's contents — is exactly unchanged. -/
theorem c5_edit_absent_fails_unchanged
    (fs : FS) (p old new content : Text)
    (hread : fsGet fs p = some content)
    (habs : containsSub old content = false) :
    (ToolExecutor.edit_file fs p old new).1.success = false ∧
    (ToolExecutor.edit_file fs p old new).2 = fs := by
  simp [ToolExecutor.edit_file, ToolExecutor.read_file, hread, habs]

/-- C5 witness: editing "Hello, World!" with absent old_text "Goodbye"
fails and leaves the file system unchanged. -/
theorem c5_edit_absent_witness :
    (ToolExecutor.edit_file fsHello ("test.txt").data ("Goodbye").data
      ("Python").data).1.success = false ∧
    (ToolExecutor.edit_file fsHello ("test.txt").data ("Goodbye").data
      ("Python").data).2 = fsHello :=
  c5_edit_absent_fails_unchanged fsHello ("test.txt").data ("Goodbye").data
    ("Python").data ("Hello, World!").data (by decide) (by decide)

/-- C6: when old_text occurs in the file's contents, edit_file succeeds
and the new contents substitute new_text for exactly the leftmost
verbatim occurrence of old_text (the returned split is minimal among all
verbatim occurrences); no other part of the contents changes. -/
theorem c6_edit_replaces_first_occurrence
    (fs : FS) (p old new content : Text)
    (hread : fsGet fs p = some content)
    (hocc : containsSub old content = true) :
    ∃ l r,
      content = l ++ old ++ r ∧
      (ToolExecutor.edit_file fs p old new).1.success = true ∧
      fsGet (ToolExecutor.edit_file fs p old new).2 p = some (l ++ new ++ r) ∧
      ∀ l2 r2, content = l2 ++ old ++ r2 → l.length ≤ l2.length := by
  obtain ⟨l, r, hsplit, hrepl, hmin⟩ := replaceFirst_spec old new content hocc
  refine ⟨l, r, hsplit, ?_, ?_, hmin⟩
  · simp [ToolExecutor.edit_file, ToolExecutor.read_file, ToolExecutor.write_file,
      hread, hocc]
  · simp [ToolExecutor.edit_file, ToolExecutor.read_file, ToolExecutor.write_file,
      hread, hocc, fsGet_fsSet, hrepl]

/-- Envelope shape of bash results: a failed result carries an error
text or a return code. -/
theorem bash_envelope (o : BashOracle) (cmd : Text) :
    (ToolExecutor.bash o cmd).success = false →
    (ToolExecutor.bash o cmd).error.isSome = true ∨
    (ToolExecutor.bash o cmd).return_code.isSome = true := by
  cases h : o cmd <;> simp [ToolExecutor.bash, h]

/-- Envelope shape of read_file results: a failed result carries an
error text. -/
theorem read_file_envelope (fs : FS) (p : Text) :
    (ToolExecutor.read_file fs p).success = false →
    (ToolExecutor.read_file fs p).error.isSome = true := by
  cases h : fsGet fs p <;> simp [ToolExecutor.read_file, h]

/-- Envelope shape of edit_file results: a failed result carries an
error text. -/
theorem edit_file_envelope (fs : FS) (p ol nw : Text) :
    (ToolExecutor.edit_file fs p ol nw).1.success = false →
    (ToolExecutor.edit_file fs p ol nw).1.error.isSome = true := by
  cases h : fsGet fs p with
  | none => simp [ToolExecutor.edit_file, ToolExecutor.read_file, h]
  | some content =>
    by_cases hc : containsSub ol content = true
    · simp [ToolExecutor.edit_file, ToolExecutor.read_file,
        ToolExecutor.write_file, h, hc]
    · simp only [Bool.not_eq_true] at hc
      simp [ToolExecutor.edit_file, ToolExecutor.read_file, h, hc]

/-- Envelope shape of the dispatch body: a failed result returned by
executeInner carries an error text or a return code. -/
theorem executeInner_envelope (o : BashOracle) (name : Text) (args : Args)
    (fs : FS) (r : ToolResult) (fs' : FS)
    (h : ToolExecutor.executeInner o name args fs = .ok (r, fs'))
    (hf : r.success = false) :
    r.error.isSome = true ∨ r.return_code.isSome = true := by
  unfold ToolExecutor.executeInner at h
  split at h
  · split at h
    · exact Except.noConfusion h
    · injection h with h'
      have hr := congrArg Prod.fst h'
      subst hr
      exact bash_envelope o _ hf
  · split at h
    · split at h
      · exact Except.noConfusion h
      · injection h with h'
        have hr := congrArg Prod.fst h'
        subst hr
        exact Or.inl (read_file_envelope fs _ hf)
    · split at h
      · split at h
        · exact Except.noConfusion h
        · split at h
          · exact Except.noConfusion h
          · injection h with h'
            have hr := congrArg Prod.fst h'
            subst hr
            simp [ToolExecutor.write_file] at hf
      · split at h
        · split at h
          · exact Except.noConfusion h
          · split at h
            · exact Except.noConfusion h
            · split at h
              · exact Except.noConfusion h
              · injection h with h'
                have hr := congrArg Prod.fst h'
                subst hr
                exact Or.inl (edit_file_envelope fs _ _ _ hf)
        · split at h
          · split at h
            · exact Except.noConfusion h
            · injection h with h'
              have hr := congrArg Prod.fst h'
              subst hr
              simp at hf
          · injection h with h'
            have hr := congrArg Prod.fst h'
            subst hr
            simp

/-- C7 (amended): execute always returns a result envelope (the
exception guard converts every raised exception into a failed result, so
nothing escapes its boundary); every failed result carries an error text
or — only in the case of a shell command that completed with a non-zero
exit code — a return code; and an unknown tool name yields a failed
result with the specific unknown-tool error text. -/
theorem c7_execute_envelope (o : BashOracle) (name : Text) (args : Args) (fs : FS) :
    ((ToolExecutor.execute o name args fs).1.success = false →
      (ToolExecutor.execute o name args fs).1.error.isSome = true ∨
      (ToolExecutor.execute o name args fs).1.return_code.isSome = true) ∧
    (name ∉ knownToolNames →
      (ToolExecutor.execute o name args fs).1.success = false ∧
      (ToolExecutor.execute o name args fs).1.error =
        some ((("Unknown tool: ").data) ++ name)) := by
  constructor
  · intro hf
    cases h : ToolExecutor.executeInner o name args fs with
    | ok rf =>
      have hx : ToolExecutor.execute o name args fs = rf := by
        unfold ToolExecutor.execute
        rw [h]
      rw [hx] at hf ⊢
      exact executeInner_envelope o name args fs rf.1 rf.2 (by rw [h]) hf
    | error e =>
      have hx : ToolExecutor.execute o name args fs =
          ({ success := false, error := some (pyErrStr e) }, fs) := by
        unfold ToolExecutor.execute
        rw [h]
      rw [hx]
      simp
  · intro hmem
    have h1 : ¬(name = ("bash").data) := fun he => hmem (by simp [knownToolNames, he])
    have h2 : ¬(name = ("read_file").data) := fun he => hmem (by simp [knownToolNames, he])
    have h3 : ¬(name = ("write_file").data) := fun he => hmem (by simp [knownToolNames, he])
    have h4 : ¬(name = ("edit_file").data) := fun he => hmem (by simp [knownToolNames, he])
    have h5 : ¬(name = ("finish").data) := fun he => hmem (by simp [knownToolNames, he])
    simp [ToolExecutor.execute, ToolExecutor.executeInner, h1, h2, h3, h4, h5]

/-- C7 witness: an unknown tool name on a trivial oracle yields the
unknown-tool failure, and the envelope implication holds there. -/
theorem c7_execute_envelope_witness :
    (ToolExecutor.execute oTimeout ("frobnicate").data [] []).1.success = false ∧
    (ToolExecutor.execute oTimeout ("frobnicate").data [] []).1.error =
      some ((("Unknown tool: ").data) ++ ("frobnicate").data) :=
  (c7_execute_envelope oTimeout ("frobnicate").data [] []).2 (by decide)

/-- C7 counterexample: a shell command that completes with exit code 1
produces a failed result that carries no error text at all (the claim
said every failure carries an error text). -/
theorem c7_counterexample_failed_without_error_text :
    (ToolExecutor.execute oC2 ("bash").data
      [(("command").data, ("false").data)] []).1.success = false ∧
    (ToolExecutor.execute oC2 ("bash").data
      [(("command").data, ("false").data)] []).1.error = none := by
  decide

/-- C6 witness: editing content "Hello, World!" replacing "World" by
"Python" succeeds and yields "Hello, Python!" via the minimal split. -/
theorem c6_edit_hello_world_witness :
    ∃ l r,
      ("Hello, World!").data = l ++ ("World").data ++ r ∧
      (ToolExecutor.edit_file fsHello ("test.txt").data ("World").data
        ("Python").data).1.success = true ∧
      fsGet (ToolExecutor.edit_file fsHello ("test.txt").data ("World").data
        ("Python").data).2 ("test.txt").data = some (l ++ ("Python").data ++ r) ∧
      ∀ l2 r2, ("Hello, World!").data = l2 ++ ("World").data ++ r2 →
        l.length ≤ l2.length :=
  c6_edit_replaces_first_occurrence fsHello ("test.txt").data ("World").data
    ("Python").data ("Hello, World!").data (by decide) (by decide)

/-! Loop-level lemmas and claims. -/

/-- C1 (evaluation of the code at the failing input): a single tool call
whose arguments string is invalid JSON makes Agent.run end the whole run
after one iteration with an error record — the exception from json.loads
escapes the per-call handling and is caught only at the run boundary, so
no failed tool-result turn is appended and the loop does not proceed. -/
theorem c1_malformed_arguments_end_run :
    (Agent.run envC1 cfg10 spT taskT ag0).1.success = false ∧
    (Agent.run envC1 cfg10 spT taskT ag0).1.error.isSome = true ∧
    (Agent.run envC1 cfg10 spT taskT ag0).1.iterations = 1 ∧
    (Agent.run envC1 cfg10 spT taskT ag0).2.history.filter turnIsTool = [] := by
  decide

/-- A run over a script that never requests tool calls walks the
early-exhaustion branch each iteration: it stays unfinished, keeps its
final result, and stops at max(iterations+1, budget-1) once fuel runs. -/
theorem loopGo_no_tool_calls (env : Env) (cfg : Config)
    (hg : ∀ i, ∃ msg u, env.gateway i = GatewayOutcome.resp msg u ∧
      truthyCalls msg.tool_calls = false) :
    ∀ fuel st, st.finished = false →
      st.iterations + fuel = cfg.max_iterations →
    ∃ st', Agent.loopGo env cfg fuel st = .ok st' ∧
      st'.finished = false ∧ st'.final_result = st.final_result ∧
      st'.iterations = (if fuel = 0 then st.iterations
        else if cfg.max_iterations ≤ st.iterations + 2 then st.iterations + 1
        else cfg.max_iterations - 1) := by
  intro fuel
  induction fuel with
  | zero =>
    intro st hf hi
    exact ⟨st, rfl, hf, rfl, by simp⟩
  | succ f ih =>
    rintro ⟨hist, its, fin, fres, tt, tc, fsv, gi⟩ hf hi
    simp only at hf hi
    subst hf
    obtain ⟨msg, u, hgw, htr⟩ := hg gi
    by_cases hle : cfg.max_iterations - 1 ≤ its + 1
    · apply Exists.intro
      refine ⟨?_, ?_, ?_, ?_⟩
      · simp only [Agent.loopGo, Bool.false_eq_true, if_false, hgw, htr,
          Agent.preBatch]
        rw [if_pos hle]
      · rfl
      · rfl
      · rw [if_neg (Nat.succ_ne_zero f), if_pos (by omega : cfg.max_iterations ≤ its + 2)]
    · have hfs : f ≠ 0 := by omega
      obtain ⟨st', hrun, hfin, hres, hits⟩ :=
        ih { history := hist ++ [Turn.assistant msg]
             iterations := its + 1
             finished := false
             final_result := fres
             total_tokens := tt + u
             total_tool_calls := tc
             fs := fsv
             gIdx := gi + 1 } rfl (by simp at hi ⊢; omega)
      simp only at hres hits
      refine ⟨st', ?_, hfin, hres, ?_⟩
      · simp only [Agent.loopGo, Bool.false_eq_true, if_false, hgw, htr,
          Agent.preBatch]
        rw [if_neg hle]
        exact hrun
      · show st'.iterations =
          (if f + 1 = 0 then its
           else if cfg.max_iterations ≤ its + 2 then its + 1
           else cfg.max_iterations - 1)
        rw [hits, if_neg hfs, if_neg (Nat.succ_ne_zero f),
          if_neg (show ¬(cfg.max_iterations ≤ its + 2) by omega)]
        by_cases h2 : cfg.max_iterations ≤ its + 1 + 2
        · rw [if_pos h2]
          omega
        · rw [if_neg h2]

/-- C3 (amended): a run whose gateway never requests tool calls and
never finishes ends with success=false and result=None after
max(1, N-1) iterations where N is the configured maximum — one short of
the maximum for N ≥ 2, because the loop treats a no-tool-call response
on or after the second-to-last allowed iteration as exhaustion. -/
theorem c3_no_tool_calls_exhausts (env : Env) (cfg : Config)
    (sp task : Text) (ag : AgentRec)
    (hg : ∀ i, ∃ msg u, env.gateway i = GatewayOutcome.resp msg u ∧
      truthyCalls msg.tool_calls = false) :
    (Agent.run env cfg sp task ag).1.success = false ∧
    (Agent.run env cfg sp task ag).1.result = none ∧
    (Agent.run env cfg sp task ag).1.iterations =
      (if cfg.max_iterations = 0 then 0
       else if cfg.max_iterations ≤ 2 then 1
       else cfg.max_iterations - 1) := by
  obtain ⟨st', hrun, hfin, hres, hits⟩ :=
    loopGo_no_tool_calls env cfg hg cfg.max_iterations
      { history := [Turn.system sp, Turn.user task]
        iterations := 0
        finished := false
        final_result := none
        total_tokens := ag.total_tokens
        total_tool_calls := ag.total_tool_calls
        fs := ag.fs
        gIdx := ag.gIdx } rfl (by simp)
  unfold Agent.run
  rw [hrun]
  simp only at hres hits
  refine ⟨by simp [hfin], by simpa using hres, ?_⟩
  simpa using hits

/-- C3 counterexample: with the maximum set to 10 and a gateway that
never requests tool calls, the run stops after 9 iterations, not 10 as
the claim states. -/
theorem c3_counterexample_max10_stops_at_9 :
    (Agent.run envC3 cfg10 spT taskT ag0).1.iterations ≠ cfg10.max_iterations := by
  decide

/-- C3 witness: the amended statement instantiated on the concrete
no-tool-call script with maximum 10. -/
theorem c3_no_tool_calls_witness :
    (Agent.run envC3 cfg10 spT taskT ag0).1.success = false ∧
    (Agent.run envC3 cfg10 spT taskT ag0).1.result = none ∧
    (Agent.run envC3 cfg10 spT taskT ag0).1.iterations =
      (if cfg10.max_iterations = 0 then 0
       else if cfg10.max_iterations ≤ 2 then 1
       else cfg10.max_iterations - 1) :=
  c3_no_tool_calls_exhausts envC3 cfg10 spT taskT ag0
    (fun _ => ⟨{ content := some ("thinking...").data }, 5, rfl, rfl⟩)

/-- The batch loop preserves the final-result/finished invariant: the
two fields are only ever written together by a finished result. -/
theorem runBatch_goodSt (env : Env) :
    ∀ calls st acc st' res, goodSt st →
      Agent.runBatch env calls st acc = .ok (st', res) → goodSt st' := by
  intro calls
  induction calls with
  | nil =>
    intro st acc st' res hg h
    simp only [Agent.runBatch] at h
    injection h with h'
    have hst : st = st' := congrArg Prod.fst h'
    exact hst ▸ hg
  | cons tc rest ih =>
    rintro ⟨hist, its, fin, fres, tt, tcn, fsv, gi⟩ acc st' res hg h
    simp only [Agent.runBatch] at h
    cases harg : tc.arguments with
    | invalid m =>
      rw [harg] at h
      simp [json_loads] at h
    | valid a =>
      rw [harg] at h
      simp only [json_loads] at h
      cases hfin : (ToolExecutor.execute env.bash tc.name a fsv).1.finished with
      | true =>
        rw [hfin] at h
        simp only [if_true] at h
        cases hout : (ToolExecutor.execute env.bash tc.name a fsv).1.output with
        | none =>
          rw [hout] at h
          simp at h
        | some out =>
          rw [hout] at h
          refine ih _ _ _ _ ?_ h
          exact fun _ => rfl
      | false =>
        rw [hfin] at h
        simp only [Bool.false_eq_true, if_false] at h
        refine ih _ _ _ _ ?_ h
        exact hg

/-- The loop preserves the final-result/finished invariant. -/
theorem loopGo_goodSt (env : Env) (cfg : Config) :
    ∀ fuel st st', goodSt st → Agent.loopGo env cfg fuel st = .ok st' →
      goodSt st' := by
  intro fuel
  induction fuel with
  | zero =>
    intro st st' hg h
    injection h with h'
    exact h' ▸ hg
  | succ f ih =>
    rintro ⟨hist, its, fin, fres, tt, tcn, fsv, gi⟩ st' hg h
    simp only [Agent.loopGo] at h
    cases fin with
    | true =>
      simp only [if_pos] at h
      injection h with h'
      exact h' ▸ hg
    | false =>
      simp only [Bool.false_eq_true, if_false] at h
      cases hgw : env.gateway gi with
      | raise e =>
        rw [hgw] at h
        simp at h
      | resp msg u =>
        simp only [hgw] at h
        cases htr : truthyCalls msg.tool_calls with
        | true =>
          simp only [htr, if_true, Agent.preBatch] at h
          cases hrb : Agent.runBatch env (msg.tool_calls.getD [])
              { history := (hist ++ [Turn.assistant msg]), iterations := its + 1,
                finished := false, final_result := fres, total_tokens := tt + u,
                total_tool_calls := tcn, fs := fsv, gIdx := gi + 1 } [] with
          | error es =>
            rw [hrb] at h
            simp at h
          | ok p =>
            obtain ⟨st3, results⟩ := p
            rw [hrb] at h
            simp only at h
            have h3 : goodSt st3 := by
              refine runBatch_goodSt env _ _ _ _ _ ?_ hrb
              exact hg
            refine ih _ _ ?_ h
            exact h3
        | false =>
          simp only [htr, Bool.false_eq_true, if_false, Agent.preBatch] at h
          by_cases hle : cfg.max_iterations - 1 ≤ its + 1
          · rw [if_pos hle] at h
            injection h with h'
            exact h' ▸ hg
          · rw [if_neg hle] at h
            refine ih _ _ ?_ h
            exact hg

/-- C4 (amended): the run's success flag is true exactly when a final
result is present — success is `finished and final_result is not None`,
and a final result is only recorded by a finish call, which also sets
the finished flag; the presence test does NOT require non-emptiness, so
an empty-string summary still counts as success. -/
theorem c4_success_iff_result_present (env : Env) (cfg : Config)
    (sp task : Text) (ag : AgentRec) :
    ((Agent.run env cfg sp task ag).1.success = true ↔
      (Agent.run env cfg sp task ag).1.result.isSome = true) := by
  unfold Agent.run
  cases h : Agent.loopGo env cfg cfg.max_iterations
      { history := [Turn.system sp, Turn.user task], iterations := 0,
        finished := false, final_result := none,
        total_tokens := ag.total_tokens,
        total_tool_calls := ag.total_tool_calls, fs := ag.fs,
        gIdx := ag.gIdx } with
  | ok st' =>
    have hgood : goodSt st' :=
      loopGo_goodSt env cfg cfg.max_iterations _ st'
        (fun hh => by simp at hh) h
    simp only
    constructor
    · intro hs
      rw [Bool.and_eq_true] at hs
      exact hs.2
    · intro hs
      rw [Bool.and_eq_true]
      exact ⟨hgood hs, hs⟩
  | error ep =>
    obtain ⟨e, st2⟩ := ep
    simp

/-- C4 counterexample: a finish call whose summary is the empty string
still yields success=true with the empty string as the recorded result,
because the code tests `final_result is not None`, not non-emptiness. -/
theorem c4_counterexample_empty_summary_success :
    (Agent.run envC4 cfg10 spT taskT ag0).1.success = true ∧
    (Agent.run envC4 cfg10 spT taskT ag0).1.result = some [] := by
  decide

/-- bash results never carry the finished flag. -/
theorem bash_not_finished (o : BashOracle) (cmd : Text) :
    (ToolExecutor.bash o cmd).finished = false := by
  cases h : o cmd <;> simp [ToolExecutor.bash, h]

/-- read_file results never carry the finished flag. -/
theorem read_file_not_finished (fs : FS) (p : Text) :
    (ToolExecutor.read_file fs p).finished = false := by
  cases h : fsGet fs p <;> simp [ToolExecutor.read_file, h]

/-- edit_file results never carry the finished flag. -/
theorem edit_file_not_finished (fs : FS) (p ol nw : Text) :
    (ToolExecutor.edit_file fs p ol nw).1.finished = false := by
  cases h : fsGet fs p with
  | none => simp [ToolExecutor.edit_file, ToolExecutor.read_file, h]
  | some content =>
    by_cases hc : containsSub ol content = true
    · simp [ToolExecutor.edit_file, ToolExecutor.read_file,
        ToolExecutor.write_file, h, hc]
    · simp only [Bool.not_eq_true] at hc
      simp [ToolExecutor.edit_file, ToolExecutor.read_file, h, hc]

/-- A result of the dispatch body carrying the finished flag also
carries an output (only the finish capability sets the flag, and it
always returns the summary as output). -/
theorem executeInner_finished_output (o : BashOracle) (name : Text)
    (args : Args) (fs : FS) (r : ToolResult) (fs' : FS)
    (h : ToolExecutor.executeInner o name args fs = .ok (r, fs'))
    (hf : r.finished = true) :
    r.output.isSome = true := by
  unfold ToolExecutor.executeInner at h
  split at h
  · split at h
    · exact Except.noConfusion h
    · injection h with h'
      have hr := congrArg Prod.fst h'
      subst hr
      rw [bash_not_finished] at hf
      exact absurd hf (by simp)
  · split at h
    · split at h
      · exact Except.noConfusion h
      · injection h with h'
        have hr := congrArg Prod.fst h'
        subst hr
        rw [read_file_not_finished] at hf
        exact absurd hf (by simp)
    · split at h
      · split at h
        · exact Except.noConfusion h
        · split at h
          · exact Except.noConfusion h
          · injection h with h'
            have hr := congrArg Prod.fst h'
            subst hr
            simp [ToolExecutor.write_file] at hf
      · split at h
        · split at h
          · exact Except.noConfusion h
          · split at h
            · exact Except.noConfusion h
            · split at h
              · exact Except.noConfusion h
              · injection h with h'
                have hr := congrArg Prod.fst h'
                subst hr
                rw [edit_file_not_finished] at hf
                exact absurd hf (by simp)
        · split at h
          · split at h
            · exact Except.noConfusion h
            · injection h with h'
              have hr := congrArg Prod.fst h'
              subst hr
              simp
          · injection h with h'
            have hr := congrArg Prod.fst h'
            subst hr
            simp at hf

/-- An execute result carrying the finished flag also carries an
output. -/
theorem execute_finished_output (o : BashOracle) (name : Text)
    (args : Args) (fs : FS)
    (hf : (ToolExecutor.execute o name args fs).1.finished = true) :
    (ToolExecutor.execute o name args fs).1.output.isSome = true := by
  cases h : ToolExecutor.executeInner o name args fs with
  | ok rf =>
    have hx : ToolExecutor.execute o name args fs = rf := by
      unfold ToolExecutor.execute
      rw [h]
    rw [hx] at hf ⊢
    exact executeInner_finished_output o name args fs rf.1 rf.2 (by rw [h]) hf
  | error e =>
    have hx : ToolExecutor.execute o name args fs =
        ({ success := false, error := some (pyErrStr e) }, fs) := by
      unfold ToolExecutor.execute
      rw [h]
    rw [hx] at hf
    simp at hf

/-- Python truthiness of a present, non-empty tool-call list. -/
theorem truthyCalls_some_of_ne_nil (calls : List ToolCallMsg) (h : calls ≠ []) :
    truthyCalls (some calls) = true := by
  cases calls with
  | nil => exact absurd rfl h
  | cons c cs => rfl

/-- A finished state makes the loop exit immediately. -/
theorem loopGo_finished (env : Env) (cfg : Config) (fuel : Nat)
    (st : LoopState) (h : st.finished = true) :
    Agent.loopGo env cfg fuel st = .ok st := by
  cases fuel with
  | zero => rfl
  | succ f => simp [Agent.loopGo, h]

/-- The batch loop on calls whose arguments all parse: it executes every
call in order, aborts nowhere, produces exactly one result turn per call
carrying that call's id, sets the finished flag exactly when some
executed result carries it, folds the final result over the batch (the
last finished call wins), and leaves the history untouched (the result
turns are appended by the caller, after the whole batch). -/
theorem runBatch_all_valid (env : Env) :
    ∀ calls (st : LoopState) acc,
      (∀ tc ∈ calls, ∃ a, tc.arguments = ArgText.valid a) →
      ∃ st' res,
        Agent.runBatch env calls st acc = .ok (st', acc ++ res) ∧
        res.length = calls.length ∧
        (∀ j (hj : j < calls.length) (hj2 : j < res.length),
          ∃ tres, res.get ⟨j, hj2⟩ = Turn.tool (calls.get ⟨j, hj⟩).id tres) ∧
        st'.finished = (st.finished || res.any turnFinished) ∧
        st'.final_result = finalAfter res st.final_result ∧
        st'.history = st.history := by
  intro calls
  induction calls with
  | nil =>
    intro st acc hv
    refine ⟨st, [], ?_, rfl, ?_, by simp, rfl, rfl⟩
    · simp [Agent.runBatch]
    · intro j hj hj2
      exact absurd hj (by simp)
  | cons tc rest ih =>
    rintro ⟨hist, its, fin, fres, tt, tcn, fsv, gi⟩ acc hv
    obtain ⟨a, ha⟩ := hv tc (by simp)
    simp only [Agent.runBatch, ha, json_loads]
    cases hfe : (ToolExecutor.execute env.bash tc.name a fsv).1.finished with
    | true =>
      have hout := execute_finished_output env.bash tc.name a fsv hfe
      obtain ⟨out, hout2⟩ := Option.isSome_iff_exists.mp hout
      simp only [hfe, if_true, hout2]
      obtain ⟨st', res', hrun, hlen, hids, hfin, hfres, hhist⟩ :=
        ih { history := hist
             iterations := its
             finished := true
             final_result := some out
             total_tokens := tt
             total_tool_calls := tcn + 1
             fs := (ToolExecutor.execute env.bash tc.name a fsv).2
             gIdx := gi }
          (acc ++ [Turn.tool tc.id (ToolExecutor.execute env.bash tc.name a fsv).1])
          (fun tc2 h2 => hv tc2 (by simp [h2]))
      refine ⟨st',
        Turn.tool tc.id (ToolExecutor.execute env.bash tc.name a fsv).1 :: res',
        ?_, by simp [hlen], ?_, ?_, ?_, hhist⟩
      · simpa using hrun
      · intro j hj hj2
        cases j with
        | zero => exact ⟨(ToolExecutor.execute env.bash tc.name a fsv).1, rfl⟩
        | succ k =>
          have hk : k < rest.length := by simpa using hj
          have hk2 : k < res'.length := by simpa using hj2
          obtain ⟨tres, htres⟩ := hids k hk hk2
          exact ⟨tres, by simpa using htres⟩
      · simp [hfin, turnFinished, hfe]
      · rw [hfres]
        simp [finalAfter, turnFinished, turnOutput, hfe, hout2]
    | false =>
      simp only [hfe, Bool.false_eq_true, if_false]
      obtain ⟨st', res', hrun, hlen, hids, hfin, hfres, hhist⟩ :=
        ih { history := hist
             iterations := its
             finished := fin
             final_result := fres
             total_tokens := tt
             total_tool_calls := tcn + 1
             fs := (ToolExecutor.execute env.bash tc.name a fsv).2
             gIdx := gi }
          (acc ++ [Turn.tool tc.id (ToolExecutor.execute env.bash tc.name a fsv).1])
          (fun tc2 h2 => hv tc2 (by simp [h2]))
      refine ⟨st',
        Turn.tool tc.id (ToolExecutor.execute env.bash tc.name a fsv).1 :: res',
        ?_, by simp [hlen], ?_, ?_, ?_, hhist⟩
      · simpa using hrun
      · intro j hj hj2
        cases j with
        | zero => exact ⟨(ToolExecutor.execute env.bash tc.name a fsv).1, rfl⟩
        | succ k =>
          have hk : k < rest.length := by simpa using hj
          have hk2 : k < res'.length := by simpa using hj2
          obtain ⟨tres, htres⟩ := hids k hk hk2
          exact ⟨tres, by simpa using htres⟩
      · simp [hfin, turnFinished, hfe]
      · rw [hfres]
        simp [finalAfter, turnFinished, hfe]

/-- C8 (amended): for every assistant turn whose tool-call batch parses
(every arguments string is valid JSON), the loop executes every call of
the batch in order — a finish call anywhere in the batch does not stop
it — and appends one result turn per call, contiguously after the
assistant turn; the run is marked finished exactly when some executed
result carries the finished flag (a successful finish call), the final
result records that call's summary (the last one, if several), and the
loop then exits right after the whole batch instead of iterating. -/
theorem c8_finish_in_batch_completes (env : Env) (cfg : Config) (fuel : Nat)
    (st : LoopState) (msg : AssistantMsg) (u : Nat) (calls : List ToolCallMsg)
    (hfin0 : st.finished = false)
    (hgw : env.gateway st.gIdx = GatewayOutcome.resp msg u)
    (hcalls : msg.tool_calls = some calls)
    (hne : calls ≠ [])
    (hv : ∀ tc ∈ calls, ∃ a, tc.arguments = ArgText.valid a) :
    ∃ st' results,
      Agent.runBatch env calls
        (Agent.preBatch msg u { st with iterations := st.iterations + 1 }) [] =
        .ok (st', results) ∧
      results.length = calls.length ∧
      (∀ j (hj : j < calls.length) (hj2 : j < results.length),
        ∃ tres, results.get ⟨j, hj2⟩ = Turn.tool (calls.get ⟨j, hj⟩).id tres) ∧
      st'.finished = results.any turnFinished ∧
      st'.final_result = finalAfter results st.final_result ∧
      st'.history = st.history ++ [Turn.assistant msg] ∧
      Agent.loopGo env cfg (fuel + 1) st =
        (if st'.finished = true
         then .ok { st' with history := st'.history ++ results }
         else Agent.loopGo env cfg fuel
           { st' with history := st'.history ++ results }) := by
  obtain ⟨hist, its, fin, fres, tt, tcn, fsv, gi⟩ := st
  simp only at hfin0 hgw
  subst hfin0
  obtain ⟨st', res, hrun, hlen, hids, hfin, hfres, hhist⟩ :=
    runBatch_all_valid env calls
      (Agent.preBatch msg u
        { history := hist, iterations := its + 1, finished := false,
          final_result := fres, total_tokens := tt, total_tool_calls := tcn,
          fs := fsv, gIdx := gi }) [] hv
  have hrun' : Agent.runBatch env calls
      (Agent.preBatch msg u
        { history := hist, iterations := its + 1, finished := false,
          final_result := fres, total_tokens := tt, total_tool_calls := tcn,
          fs := fsv, gIdx := gi }) [] =
      .ok (st', res) := by simpa using hrun
  refine ⟨st', res, hrun', hlen, hids, ?_, ?_, ?_, ?_⟩
  · rw [hfin]
    simp [Agent.preBatch]
  · rw [hfres]
    simp [Agent.preBatch]
  · rw [hhist]
    simp [Agent.preBatch]
  · have hstep : Agent.loopGo env cfg (fuel + 1)
        { history := hist, iterations := its, finished := false,
          final_result := fres, total_tokens := tt, total_tool_calls := tcn,
          fs := fsv, gIdx := gi } =
        Agent.loopGo env cfg fuel { st' with history := st'.history ++ res } := by
      simp only [Agent.loopGo, Bool.false_eq_true, if_false, hgw, hcalls,
        truthyCalls_some_of_ne_nil calls hne, if_true, Option.getD_some, hrun']
    rw [hstep]
    cases hf : st'.finished with
    | true =>
      simp only [hf, if_true]
      exact loopGo_finished env cfg fuel _ (by simp [hf])
    | false =>
      simp only [hf, Bool.false_eq_true, if_false]

/-- C8 counterexample: a batch [finish("done"), bash with invalid JSON
arguments] makes the run end in an error with both calls counted but no
tool-result turn appended at all — the claim's per-call result turns and
recorded success are absent. -/
theorem c8_counterexample_malformed_after_finish :
    (Agent.run envC8 cfg10 spT taskT ag0).1.success = false ∧
    (Agent.run envC8 cfg10 spT taskT ag0).1.tool_calls = 2 ∧
    (Agent.run envC8 cfg10 spT taskT ag0).2.history.filter turnIsTool = [] := by
  decide

/-- C8 witness: the amended statement instantiated on a concrete batch
holding finish followed by a bash call. -/
theorem c8_finish_in_batch_witness :
    ∃ st' results,
      Agent.runBatch envC8w callsC8
        (Agent.preBatch msgC8 7 { stC8 with iterations := stC8.iterations + 1 }) [] =
        .ok (st', results) ∧
      results.length = callsC8.length ∧
      (∀ j (hj : j < callsC8.length) (hj2 : j < results.length),
        ∃ tres, results.get ⟨j, hj2⟩ = Turn.tool (callsC8.get ⟨j, hj⟩).id tres) ∧
      st'.finished = results.any turnFinished ∧
      st'.final_result = finalAfter results stC8.final_result ∧
      st'.history = stC8.history ++ [Turn.assistant msgC8] ∧
      Agent.loopGo envC8w cfg10 (9 + 1) stC8 =
        (if st'.finished = true
         then .ok { st' with history := st'.history ++ results }
         else Agent.loopGo envC8w cfg10 9
           { st' with history := st'.history ++ results }) :=
  c8_finish_in_batch_completes envC8w cfg10 9 stC8 msgC8 7 callsC8 rfl rfl rfl
    (by decide)
    (by intro tc htc
        simp only [callsC8, List.mem_cons, List.not_mem_nil, or_false] at htc
        rcases htc with h | h
        · exact ⟨[(("summary").data, ("done").data)], by rw [h]⟩
        · exact ⟨[(("command").data, ("echo hi").data)], by rw [h]⟩)

/-- The retry trace is never empty. -/
theorem retryTrace_ne_nil (env : Env) (cfg : Config) (sp task : Text) :
    ∀ n ag, Agent.retryTrace env cfg sp task n ag ≠ [] := by
  intro n ag
  cases n with
  | zero => simp [Agent.retryTrace]
  | succ m =>
    simp only [Agent.retryTrace]
    split
    · simp
    · simp

/-- The retry trace has at least one entry and at most fuel+1. -/
theorem retryTrace_length (env : Env) (cfg : Config) (sp task : Text) :
    ∀ n ag, 1 ≤ (Agent.retryTrace env cfg sp task n ag).length ∧
      (Agent.retryTrace env cfg sp task n ag).length ≤ n + 1 := by
  intro n
  induction n with
  | zero =>
    intro ag
    simp [Agent.retryTrace]
  | succ m ih =>
    intro ag
    simp only [Agent.retryTrace]
    split
    · simp
    · refine ⟨by simp, ?_⟩
      simp only [List.length_cons]
      exact Nat.succ_le_succ (ih _).2

/-- The first entry of the retry trace starts from the given state. -/
theorem retryTrace_head_state (env : Env) (cfg : Config) (sp task : Text) :
    ∀ n ag, ∃ r, (Agent.retryTrace env cfg sp task n ag).head? = some (ag, r) := by
  intro n ag
  cases n with
  | zero => exact ⟨(Agent.run env cfg sp task ag).1, rfl⟩
  | succ m =>
    simp only [Agent.retryTrace]
    split
    · exact ⟨(Agent.run env cfg sp task ag).1, rfl⟩
    · exact ⟨(Agent.run env cfg sp task ag).1, rfl⟩

/-- The returned result of the attempt loop is the result of the last
trace entry. -/
theorem retryGo_eq_trace_last (env : Env) (cfg : Config) (sp task : Text) :
    ∀ n ag, ∃ q, (Agent.retryTrace env cfg sp task n ag).getLast? = some q ∧
      (Agent.retryGo env cfg sp task n ag).1 = q.2 := by
  intro n
  induction n with
  | zero =>
    intro ag
    exact ⟨(ag, (Agent.run env cfg sp task ag).1), by simp [Agent.retryTrace], rfl⟩
  | succ m ih =>
    intro ag
    simp only [Agent.retryTrace, Agent.retryGo]
    by_cases hs : (Agent.run env cfg sp task ag).1.success = true
    · rw [if_pos hs, if_pos hs]
      exact ⟨(ag, (Agent.run env cfg sp task ag).1), by simp, rfl⟩
    · rw [if_neg hs, if_neg hs]
      obtain ⟨q, hq1, hq2⟩ :=
        ih (Agent.resetAgent (Agent.run env cfg sp task ag).2)
      refine ⟨q, ?_, hq2⟩
      cases htr : Agent.retryTrace env cfg sp task m
          (Agent.resetAgent (Agent.run env cfg sp task ag).2) with
      | nil =>
        rw [htr] at hq1
        exact absurd hq1 (by simp)
      | cons y ys =>
        rw [htr] at hq1
        rw [List.getLast?_cons_cons]
        exact hq1

/-- Every entry of the retry trace except possibly the last records a
failed attempt. -/
theorem retryTrace_dropLast_fail (env : Env) (cfg : Config) (sp task : Text) :
    ∀ n ag p, p ∈ (Agent.retryTrace env cfg sp task n ag).dropLast →
      p.2.success = false := by
  intro n
  induction n with
  | zero =>
    intro ag p hp
    simp [Agent.retryTrace] at hp
  | succ m ih =>
    intro ag p hp
    simp only [Agent.retryTrace] at hp
    by_cases hs : (Agent.run env cfg sp task ag).1.success = true
    · rw [if_pos hs] at hp
      simp at hp
    · rw [if_neg hs] at hp
      cases htr : Agent.retryTrace env cfg sp task m
          (Agent.resetAgent (Agent.run env cfg sp task ag).2) with
      | nil =>
        exact absurd htr (retryTrace_ne_nil env cfg sp task m _)
      | cons y ys =>
        rw [htr] at hp
        rw [List.dropLast_cons₂] at hp
        rcases List.mem_cons.mp hp with h | h
        · rw [h]
          simp only [Bool.not_eq_true] at hs
          exact hs
        · exact ih _ p (by rw [htr]; exact h)

/-- The last trace entry succeeds, or the trace used all attempts. -/
theorem retryTrace_last_success_or_full (env : Env) (cfg : Config)
    (sp task : Text) :
    ∀ n ag,
      (∃ q, (Agent.retryTrace env cfg sp task n ag).getLast? = some q ∧
        q.2.success = true) ∨
      (Agent.retryTrace env cfg sp task n ag).length = n + 1 := by
  intro n
  induction n with
  | zero =>
    intro ag
    right
    simp [Agent.retryTrace]
  | succ m ih =>
    intro ag
    simp only [Agent.retryTrace]
    by_cases hs : (Agent.run env cfg sp task ag).1.success = true
    · left
      rw [if_pos hs]
      exact ⟨(ag, (Agent.run env cfg sp task ag).1), by simp, hs⟩
    · rw [if_neg hs]
      rcases ih (Agent.resetAgent (Agent.run env cfg sp task ag).2) with
        ⟨q, hq1, hq2⟩ | hlen
      · left
        refine ⟨q, ?_, hq2⟩
        cases htr : Agent.retryTrace env cfg sp task m
            (Agent.resetAgent (Agent.run env cfg sp task ag).2) with
        | nil =>
          rw [htr] at hq1
          exact absurd hq1 (by simp)
        | cons y ys =>
          rw [htr] at hq1
          rw [List.getLast?_cons_cons]
          exact hq1
      · right
        simp only [List.length_cons, hlen]

/-- Every retry trace entry pairs a state with the run result obtained
from exactly that state. -/
theorem retryTrace_entries_run (env : Env) (cfg : Config) (sp task : Text) :
    ∀ n ag p, p ∈ Agent.retryTrace env cfg sp task n ag →
      p.2 = (Agent.run env cfg sp task p.1).1 := by
  intro n
  induction n with
  | zero =>
    intro ag p hp
    simp only [Agent.retryTrace] at hp
    rcases List.mem_singleton.mp hp with h
    rw [h]
  | succ m ih =>
    intro ag p hp
    simp only [Agent.retryTrace] at hp
    by_cases hs : (Agent.run env cfg sp task ag).1.success = true
    · rw [if_pos hs] at hp
      rcases List.mem_singleton.mp hp with h
      rw [h]
    · rw [if_neg hs] at hp
      rcases List.mem_cons.mp hp with h | h
      · rw [h]
      · exact ih _ p h

/-- Entries after the first start from an emptied conversation and
zeroed usage counters. -/
theorem retryTrace_reset_after_first (env : Env) (cfg : Config)
    (sp task : Text) :
    ∀ n ag i p, 1 ≤ i →
      (Agent.retryTrace env cfg sp task n ag).get? i = some p →
      p.1.history = [] ∧ p.1.total_tokens = 0 ∧ p.1.total_tool_calls = 0 := by
  intro n
  induction n with
  | zero =>
    intro ag i p h1 hp
    rcases i with _ | k
    · omega
    · simp [Agent.retryTrace] at hp
  | succ m ih =>
    intro ag i p h1 hp
    rcases i with _ | k
    · omega
    · simp only [Agent.retryTrace] at hp
      by_cases hs : (Agent.run env cfg sp task ag).1.success = true
      · rw [if_pos hs] at hp
        simp at hp
      · rw [if_neg hs] at hp
        rw [List.get?_cons_succ] at hp
        rcases k with _ | j
        · obtain ⟨r, hh⟩ := retryTrace_head_state env cfg sp task m
            (Agent.resetAgent (Agent.run env cfg sp task ag).2)
          rw [List.get?_zero, hh] at hp
          have hp2 : p = (Agent.resetAgent (Agent.run env cfg sp task ag).2, r) :=
            Option.some.inj hp.symm
          rw [hp2]
          exact ⟨rfl, rfl, rfl⟩
        · exact ih _ (j + 1) p (by omega) hp

/-- C9: the retry wrapper makes between 1 and n attempts (n ≥ 1); every
attempt's recorded result is the run from its recorded start state; all
attempts before the last fail; the last attempt succeeds or all n were
used; the wrapper returns the last attempt's result unmodified; and
every attempt after the first starts from an emptied conversation and
zeroed usage counters. -/
theorem c9_retry_first_success_or_last_failure (env : Env) (cfg : Config)
    (sp task : Text) (n : Nat) (ag : AgentRec) (hn : 1 ≤ n) :
    ∃ tr, tr = Agent.retryTrace env cfg sp task (n - 1) ag ∧
      (Agent.run_with_retry env cfg sp task n ag).map Prod.fst =
        (tr.getLast?).map Prod.snd ∧
      1 ≤ tr.length ∧ tr.length ≤ n ∧
      (∀ p ∈ tr, p.2 = (Agent.run env cfg sp task p.1).1) ∧
      (∀ p ∈ tr.dropLast, p.2.success = false) ∧
      ((∃ q, tr.getLast? = some q ∧ q.2.success = true) ∨ tr.length = n) ∧
      (∀ i p, 1 ≤ i → tr.get? i = some p →
        p.1.history = [] ∧ p.1.total_tokens = 0 ∧ p.1.total_tool_calls = 0) := by
  obtain ⟨m, rfl⟩ : ∃ m, n = m + 1 := ⟨n - 1, by omega⟩
  refine ⟨Agent.retryTrace env cfg sp task m ag, by simp, ?_, ?_, ?_, ?_, ?_, ?_, ?_⟩
  · obtain ⟨q, hq1, hq2⟩ := retryGo_eq_trace_last env cfg sp task m ag
    simp only [Agent.run_with_retry, Option.map_some]
    rw [hq1]
    simp [hq2]
  · exact (retryTrace_length env cfg sp task m ag).1
  · exact (retryTrace_length env cfg sp task m ag).2
  · exact retryTrace_entries_run env cfg sp task m ag
  · exact retryTrace_dropLast_fail env cfg sp task m ag
  · exact retryTrace_last_success_or_full env cfg sp task m ag
  · exact retryTrace_reset_after_first env cfg sp task m ag

/-- C9 witness: the statement instantiated at 2 attempts on a script
that finishes immediately with summary "done". -/
theorem c9_retry_witness :
    ∃ tr, tr = Agent.retryTrace envDone cfg10 spT taskT (2 - 1) ag0 ∧
      (Agent.run_with_retry envDone cfg10 spT taskT 2 ag0).map Prod.fst =
        (tr.getLast?).map Prod.snd ∧
      1 ≤ tr.length ∧ tr.length ≤ 2 ∧
      (∀ p ∈ tr, p.2 = (Agent.run envDone cfg10 spT taskT p.1).1) ∧
      (∀ p ∈ tr.dropLast, p.2.success = false) ∧
      ((∃ q, tr.getLast? = some q ∧ q.2.success = true) ∨ tr.length = 2) ∧
      (∀ i p, 1 ≤ i → tr.get? i = some p →
        p.1.history = [] ∧ p.1.total_tokens = 0 ∧ p.1.total_tool_calls = 0) :=
  c9_retry_first_success_or_last_failure envDone cfg10 spT taskT 2 ag0 (by decide)

/-- The batch loop never reads the usage counters: running it from a
state whose counters carry constant offsets yields the same outcome with
the same offsets. -/
theorem runBatch_addTk (env : Env) (a b : Nat) :
    ∀ calls hist its fin fres tt tcn fsv gi acc,
      Agent.runBatch env calls
        (LoopState.mk hist its fin fres (a + tt) (b + tcn) fsv gi) acc =
        (match Agent.runBatch env calls
            (LoopState.mk hist its fin fres tt tcn fsv gi) acc with
         | .ok (st', res) => .ok (addTk a b st', res)
         | .error (e, st') => .error (e, addTk a b st')) := by
  intro calls
  induction calls with
  | nil =>
    intro hist its fin fres tt tcn fsv gi acc
    simp [Agent.runBatch, addTk]
  | cons tc rest ih =>
    intro hist its fin fres tt tcn fsv gi acc
    simp only [Agent.runBatch]
    cases harg : tc.arguments with
    | invalid m =>
      simp [harg, json_loads, addTk, Nat.add_assoc]
    | valid a' =>
      simp only [harg, json_loads]
      cases hfe : (ToolExecutor.execute env.bash tc.name a' fsv).1.finished with
      | true =>
        simp only [hfe, if_true]
        cases hout : (ToolExecutor.execute env.bash tc.name a' fsv).1.output with
        | none =>
          simp [hout, addTk, Nat.add_assoc]
        | some out =>
          simp only [hout]
          rw [Nat.add_assoc b tcn 1]
          exact ih hist its true (some out) tt (tcn + 1)
            (ToolExecutor.execute env.bash tc.name a' fsv).2 gi
            (acc ++ [Turn.tool tc.id (ToolExecutor.execute env.bash tc.name a' fsv).1])
      | false =>
        simp only [hfe, Bool.false_eq_true, if_false]
        rw [Nat.add_assoc b tcn 1]
        exact ih hist its fin fres tt (tcn + 1)
          (ToolExecutor.execute env.bash tc.name a' fsv).2 gi
          (acc ++ [Turn.tool tc.id (ToolExecutor.execute env.bash tc.name a' fsv).1])

/-- The agent loop never reads the usage counters either: running it
with constant counter offsets yields the same control flow with the same
offsets on the final counters. -/
theorem loopGo_addTk (env : Env) (cfg : Config) (a b : Nat) :
    ∀ fuel (st : LoopState),
      Agent.loopGo env cfg fuel (addTk a b st) =
        (match Agent.loopGo env cfg fuel st with
         | .ok st' => .ok (addTk a b st')
         | .error (e, st') => .error (e, addTk a b st')) := by
  intro fuel
  induction fuel with
  | zero => intro st; rfl
  | succ f ih =>
    rintro ⟨hist, its, fin, fres, tt, tcn, fsv, gi⟩
    simp only [addTk]
    simp only [Agent.loopGo]
    cases fin with
    | true => simp
    | false =>
      simp only [Bool.false_eq_true, if_false]
      cases hgw : env.gateway gi with
      | raise e =>
        simp [hgw, addTk]
      | resp msg u =>
        simp only [hgw, Agent.preBatch]
        cases htr : truthyCalls msg.tool_calls with
        | true =>
          simp only [htr, if_true]
          rw [Nat.add_assoc a tt u]
          rw [runBatch_addTk env a b (msg.tool_calls.getD [])
            (hist ++ [Turn.assistant msg]) (its + 1) false fres (tt + u) tcn
            fsv (gi + 1) []]
          cases hrb : Agent.runBatch env (msg.tool_calls.getD [])
              (LoopState.mk (hist ++ [Turn.assistant msg]) (its + 1) false fres
                (tt + u) tcn fsv (gi + 1)) [] with
          | error es =>
            obtain ⟨e, st'⟩ := es
            rfl
          | ok p =>
            obtain ⟨st3, results⟩ := p
            simp only [addTk]
            exact ih { st3 with history := st3.history ++ results }
        | false =>
          simp only [htr, Bool.false_eq_true, if_false]
          by_cases hle : cfg.max_iterations - 1 ≤ its + 1
          · rw [if_pos hle, if_pos hle]
            simp [addTk, Nat.add_assoc]
          · rw [if_neg hle, if_neg hle]
            rw [Nat.add_assoc a tt u]
            exact ih (LoopState.mk (hist ++ [Turn.assistant msg]) (its + 1)
              false fres (tt + u) tcn fsv (gi + 1))

/-- C10: Agent.run does not reset the usage counters on entry — a run
started with counters t and c reports t resp. c plus the run's own
usage, and behaves identically otherwise (same success flag, iteration
count); only the conversation history is re-initialized on entry, so the
run's outcome does not depend on the history the agent carried in. -/
theorem c10_run_adds_to_prior_counters (env : Env) (cfg : Config)
    (sp task : Text) (ag : AgentRec) :
    (Agent.run env cfg sp task ag).1.tokens =
      ag.total_tokens + (Agent.run env cfg sp task (zeroUsage ag)).1.tokens ∧
    (Agent.run env cfg sp task ag).1.tool_calls =
      ag.total_tool_calls +
        (Agent.run env cfg sp task (zeroUsage ag)).1.tool_calls ∧
    (Agent.run env cfg sp task ag).1.success =
      (Agent.run env cfg sp task (zeroUsage ag)).1.success ∧
    (Agent.run env cfg sp task ag).1.iterations =
      (Agent.run env cfg sp task (zeroUsage ag)).1.iterations ∧
    ∀ h, Agent.run env cfg sp task { ag with history := h } =
      Agent.run env cfg sp task ag := by
  obtain ⟨agh, agt, agc, agf, agg⟩ := ag
  have key := loopGo_addTk env cfg agt agc cfg.max_iterations
    (LoopState.mk [Turn.system sp, Turn.user task] 0 false none 0 0 agf agg)
  have e : (LoopState.mk [Turn.system sp, Turn.user task] 0 false none
      agt agc agf agg) =
      addTk agt agc (LoopState.mk [Turn.system sp, Turn.user task] 0 false none
        0 0 agf agg) := by
    simp [addTk]
  refine ⟨?_, ?_, ?_, ?_, fun h => rfl⟩ <;>
  · unfold Agent.run
    simp only [zeroUsage]
    rw [e, key]
    cases hz : Agent.loopGo env cfg cfg.max_iterations
        (LoopState.mk [Turn.system sp, Turn.user task] 0 false none
          0 0 agf agg) with
    | ok st' => simp [addTk]
    | error ep =>
      obtain ⟨er, st'⟩ := ep
      simp [addTk]

end AgentSpec
